import Mathlib

/-!
Verification of the ENEM hit-counting / median-labeling pipeline
(notebooks/02_build_hits.py, with the upstream filter of
notebooks/01_download_and_clean.py).

The embedding models the DuckDB query of `compute_hits` as pure functions
over lists of records.  Strings are lists of characters, SQL NULL is
`Option`, numeric scores are rationals.  The zipped `UNNEST` of the split
answer/key strings pads the shorter list with NULL, and `NULL = x` is NULL,
which the `CASE WHEN ... THEN 1 ELSE 0` turns into 0; hence the per-subject
hit count is the match count over the common prefix of the two character
lists, which `countMatches` computes directly.
-/

/-- The four exam subjects (science, humanities, language, math columns). -/
inductive Subject where
  | science
  | humanities
  | language
  | math
deriving DecidableEq

/-- Fixed answer-string width per subject: `REPEAT` length 45 for
science/humanities/math and 50 for language in the query. -/
def subjectLen : Subject → Nat
  | .language => 50
  | _ => 45

/-- Sentinel character substituted for a NULL answers string:
`COALESCE(answers_*, REPEAT('#', L))`. -/
def ansSentinel : Char := '#'

/-- Sentinel character substituted for a NULL key string:
`COALESCE(key_*, REPEAT('.', L))`. -/
def keySentinel : Char := '.'

/-- Passthrough demographic/school attributes selected from the joined
table `t` in the final SELECT (lines 130-140 of 02_build_hits.py). -/
structure Attr where
  sex : Option Int
  race_color : Option Int
  school_type : Option Int
  teaching_mode : Option Int
  presence : Subject → Option Int
  family_income_bracket : Option Int
  school_funding_src : Option Int
  school_admin_dependency : Option Int

/-- One row of the source parquet (enem_2017.parquet), as read by
`compute_hits`: id, year, per-subject answers/key strings, scores,
booklet codes, and the passthrough attributes. -/
structure SourceRow where
  registration_id : Int
  exam_year : Int
  answers : Subject → Option (List Char)
  key : Subject → Option (List Char)
  score : Subject → Option ℚ
  code_exam : Subject → Option Int
  attrs : Attr

/-- Match count of two character lists position by position.  This is the
value of `SUM(CASE WHEN ans = key THEN 1 ELSE 0 END)` over the zipped
unnested positions: beyond the end of either list the zipped column is
NULL, the SQL comparison is NULL, and the CASE contributes 0, so only
positions present in both lists can contribute. -/
def countMatches : List Char → List Char → Nat
  | a :: as, k :: ks => (if a = k then 1 else 0) + countMatches as ks
  | _, _ => 0

/-- Per-subject hit count of one source row: each of the answers and key
strings is the parquet value when non-NULL, else the coalesced sentinel
string of the fixed subject width, and the hits are the positional match
count (hits CTE, lines 59-66 and 91-94 of 02_build_hits.py). -/
def hitsOf (r : SourceRow) (s : Subject) : Nat :=
  countMatches ((r.answers s).getD (List.replicate (subjectLen s) ansSentinel))
    ((r.key s).getD (List.replicate (subjectLen s) keySentinel))

/-- One row of the `hits` CTE: id, year, passthrough scores and booklet
codes, and the four hit counts. -/
structure HitRow where
  registration_id : Int
  exam_year : Int
  score : Subject → Option ℚ
  code_exam : Subject → Option Int
  hits : Subject → Nat

/-- The `hits` CTE.  The query unnests each source row into per-position
rows and re-aggregates with `GROUP BY ALL` on (id, year, scores, codes);
since `registration_id` is a group-by column and is unique per candidate,
each group is exactly the unnested positions of one source row, so the CTE
is one `HitRow` per source row. -/
def hitRows (rs : List SourceRow) : List HitRow :=
  rs.map fun r =>
    { registration_id := r.registration_id
      exam_year := r.exam_year
      score := r.score
      code_exam := r.code_exam
      hits := fun s => hitsOf r s }

/-- The multiset of non-NULL scores of subject `s` over the rows of the
partition keyed by (exam_year, hits_s): the values the window aggregate
`MEDIAN(score_s) OVER (PARTITION BY exam_year, hits_s)` ranges over
(aggregates ignore NULL inputs). -/
def groupScores (hs : List HitRow) (year : Int) (n : Nat) (s : Subject) : List ℚ :=
  (hs.filter fun r => decide (r.exam_year = year) && decide (r.hits s = n)).filterMap
    fun r => r.score s

/-- DuckDB MEDIAN over a multiset of DOUBLEs, on rationals: NULL for an
empty input, the central order statistic for odd size, and the arithmetic
mean of the two central order statistics for even size. -/
def median (xs : List ℚ) : Option ℚ :=
  let s := List.insertionSort (fun a b : ℚ => a ≤ b) xs
  if s.length = 0 then none
  else if s.length % 2 = 1 then s[s.length / 2]?
  else
    match s[s.length / 2 - 1]?, s[s.length / 2]? with
    | some a, some b => some ((a + b) / 2)
    | _, _ => none

/-- Three-valued SQL `>=` on nullable numerics: NULL when either side is
NULL. -/
def sqlGe (a b : Option ℚ) : Option Bool :=
  match a, b with
  | some x, some y => some (decide (y ≤ x))
  | _, _ => none

/-- SQL `CASE WHEN c THEN t ELSE e END` with a three-valued condition: a
NULL condition selects the ELSE branch. -/
def sqlCase (c : Option Bool) (t e : Nat) : Nat :=
  if c = some true then t else e

/-- One output row of the final SELECT, before the attribute join: hit-CTE
fields plus per-subject `median_score` and `above_median` (lines 99-128 of
02_build_hits.py). -/
structure LabeledRow where
  registration_id : Int
  exam_year : Int
  score : Subject → Option ℚ
  code_exam : Subject → Option Int
  hits : Subject → Nat
  median_score : Subject → Option ℚ
  above_median : Subject → Nat

/-- Labeling of one hit row against the full hit-row list: the window
median of its (year, hits_s) partition, and the CASE-produced 0/1
above-median flag. -/
def labelOne (hs : List HitRow) (r : HitRow) : LabeledRow :=
  { registration_id := r.registration_id
    exam_year := r.exam_year
    score := r.score
    code_exam := r.code_exam
    hits := r.hits
    median_score := fun s => median (groupScores hs r.exam_year (r.hits s) s)
    above_median := fun s =>
      sqlCase (sqlGe (r.score s) (median (groupScores hs r.exam_year (r.hits s) s))) 1 0 }

/-- The median/above-median labeling pass over the whole hit-row list. -/
def labelRows (hs : List HitRow) : List LabeledRow :=
  hs.map (labelOne hs)

/-- One row of the final result: the labeled fields plus the passthrough
attributes of the matched source row, NULL (`none`) when the LEFT JOIN
found no match. -/
structure OutRow where
  labeled : LabeledRow
  attrs : Option Attr

/-- Join predicate of the LEFT JOIN:
`h.registration_id = t.registration_id AND h.exam_year = t.exam_year`. -/
def joinKey (l : LabeledRow) (t : SourceRow) : Bool :=
  decide (l.registration_id = t.registration_id) && decide (l.exam_year = t.exam_year)

/-- Output rows contributed by one left row of the LEFT JOIN: one row per
matching right row, or a single row with NULL attributes when no right row
matches. -/
def joinOne (l : LabeledRow) (ts : List SourceRow) : List OutRow :=
  match ts.filter (joinKey l) with
  | [] => [{ labeled := l, attrs := none }]
  | ms => ms.map fun t => { labeled := l, attrs := some t.attrs }

/-- SQL LEFT JOIN of the labeled rows onto the attribute table
(lines 142-149 of 02_build_hits.py). -/
def leftJoin (ls : List LabeledRow) (ts : List SourceRow) : List OutRow :=
  ls.flatMap fun l => joinOne l ts

/-- The whole `compute_hits` query: hits CTE, median/above-median labeling,
LEFT JOIN back onto the same source parquet. -/
def compute_hits (rs : List SourceRow) : List OutRow :=
  leftJoin (labelRows (hitRows rs)) rs

/-- The row filter of `build` in 01_download_and_clean.py (lines 191-196):
keep only rows whose four presence flags equal 1.  Polars `filter` keeps a
row only when the conjunction is true, so a NULL flag drops the row. -/
def presenceFilter (rs : List SourceRow) : List SourceRow :=
  rs.filter fun r =>
    decide (r.attrs.presence .science = some 1)
      && decide (r.attrs.presence .humanities = some 1)
      && decide (r.attrs.presence .language = some 1)
      && decide (r.attrs.presence .math = some 1)

/-- Modelled from the spec: the valid answer/key alphabet is the set of
multiple-choice letters (the source never materializes it). -/
def validAlphabet : List Char := ['A', 'B', 'C', 'D', 'E']

/-- Modelled from the spec: the number of positions i in [0, L) at which
the answers string and the key string hold the same character. -/
def specHitCount (a k : List Char) (l : Nat) : Nat :=
  ((List.range l).filter fun i => (a[i]?).isSome && decide (a[i]? = k[i]?)).length

theorem countMatches_le_left : ∀ a k : List Char, countMatches a k ≤ a.length
  | [], _ => by simp [countMatches]
  | _ :: _, [] => by simp [countMatches]
  | a :: as, k :: ks => by
    have ih := countMatches_le_left as ks
    by_cases h : a = k <;> simp [countMatches, h] <;> omega

theorem countMatches_le_right : ∀ a k : List Char, countMatches a k ≤ k.length
  | [], _ => by simp [countMatches]
  | _ :: _, [] => by simp [countMatches]
  | a :: as, k :: ks => by
    have ih := countMatches_le_right as ks
    by_cases h : a = k <;> simp [countMatches, h] <;> omega

theorem countMatches_self : ∀ a : List Char, countMatches a a = a.length
  | [] => rfl
  | a :: as => by simp [countMatches, countMatches_self as, Nat.add_comm]

theorem countMatches_replicate_left (c : Char) :
    ∀ (n : Nat) (k : List Char), c ∉ k → countMatches (List.replicate n c) k = 0
  | 0, k, _ => by cases k <;> rfl
  | _ + 1, [], _ => rfl
  | n + 1, y :: ks, h => by
    have hc : c ≠ y := fun hcy => h (hcy ▸ List.mem_cons_self y ks)
    simp only [List.replicate_succ, countMatches, if_neg hc,
      countMatches_replicate_left c n ks (fun hm => h (List.mem_cons_of_mem y hm))]

theorem specHitCount_cons (x y : Char) (as ks : List Char) (n : Nat) :
    specHitCount (x :: as) (y :: ks) (n + 1)
      = (if x = y then 1 else 0) + specHitCount as ks n := by
  unfold specHitCount
  rw [List.range_succ_eq_map, List.filter_cons, List.filter_map]
  have hp : ((fun i => (x :: as)[i]?.isSome && decide ((x :: as)[i]? = (y :: ks)[i]?))
        ∘ Nat.succ)
      = fun i => as[i]?.isSome && decide (as[i]? = ks[i]?) := by
    funext i
    simp
  rw [hp]
  by_cases hxy : x = y
  · simp [hxy, Nat.add_comm]
  · simp [hxy]

theorem specHitCount_eq_countMatches :
    ∀ a k : List Char, a.length = k.length → specHitCount a k a.length = countMatches a k
  | [], [], _ => rfl
  | [], _ :: _, h => by simp at h
  | _ :: _, [], h => by simp at h
  | x :: as, y :: ks, h => by
    have hlen : as.length = ks.length := by simpa using h
    have ih := specHitCount_eq_countMatches as ks hlen
    simp only [List.length_cons, specHitCount_cons, ih, countMatches]

/-- Attribute block with all fields NULL except presence flags set to 1. -/
def attr0 : Attr :=
  { sex := none, race_color := none, school_type := none, teaching_mode := none
    presence := fun _ => some 1, family_income_bracket := none
    school_funding_src := none, school_admin_dependency := none }

/-- Base concrete source row with NULL strings and scores. -/
def row0 : SourceRow :=
  { registration_id := 1, exam_year := 2017
    answers := fun _ => none, key := fun _ => none
    score := fun _ => none, code_exam := fun _ => none, attrs := attr0 }

/-- Concrete row whose science answers and key are the same 45-character
string. -/
def rowC1 : SourceRow :=
  { row0 with
    answers := fun _ => some (List.replicate 45 'A')
    key := fun _ => some (List.replicate 45 'A') }

/-- C1.  Hit counter contract: when both the answers string and the key
string of subject s are present with the fixed subject length L, the
computed hit count equals the number of positions i in [0, L) at which the
two strings agree; if the strings are equal the count is L; and the count
for "ABCD" against "ABXD" is 3. -/
theorem hit_counter_contract (r : SourceRow) (s : Subject) (a k : List Char)
    (ha : r.answers s = some a) (hk : r.key s = some k)
    (hla : a.length = subjectLen s) (hlk : k.length = subjectLen s) :
    hitsOf r s = specHitCount a k (subjectLen s)
      ∧ (a = k → hitsOf r s = subjectLen s)
      ∧ countMatches ['A', 'B', 'C', 'D'] ['A', 'B', 'X', 'D'] = 3 := by
  have hcm : hitsOf r s = countMatches a k := by
    simp [hitsOf, ha, hk]
  refine ⟨?_, ?_, by decide⟩
  · rw [hcm, ← hla, specHitCount_eq_countMatches a k (by rw [hla, hlk])]
  · intro hak
    rw [hcm, hak, countMatches_self, hlk]

theorem hit_counter_contract_witness :
    hitsOf rowC1 .science
        = specHitCount (List.replicate 45 'A') (List.replicate 45 'A') (subjectLen .science)
      ∧ (List.replicate 45 'A' = List.replicate 45 'A'
          → hitsOf rowC1 .science = subjectLen .science)
      ∧ countMatches ['A', 'B', 'C', 'D'] ['A', 'B', 'X', 'D'] = 3 :=
  hit_counter_contract rowC1 .science (List.replicate 45 'A') (List.replicate 45 'A')
    rfl rfl (by simp [subjectLen]) (by simp [subjectLen])

/-- Concrete row whose science answers and key are present 46-character
strings (one longer than the fixed width 45). -/
def rowLong : SourceRow :=
  { row0 with
    answers := fun _ => some (List.replicate 46 'A')
    key := fun _ => some (List.replicate 46 'A') }

/-- Concrete row whose humanities answers and key are present 47-character
strings. -/
def rowLong2 : SourceRow :=
  { row0 with
    answers := fun _ => some (List.replicate 47 'B')
    key := fun _ => some (List.replicate 47 'B') }

/-- C4.  Sentinel substitution: a NULL answers or key string is replaced by
the fixed-width sentinel string; the two sentinel characters differ and
neither is a valid choice letter; hence, for a key that is absent or drawn
from the valid alphabet, an absent or all-sentinel answers string yields
zero hits (and the computation is total, never an error). -/
theorem sentinel_substitution (r : SourceRow) (s : Subject) (k : List Char)
    (hk : r.key s = none ∨ (r.key s = some k ∧ ∀ c ∈ k, c ∈ validAlphabet)) :
    ansSentinel ≠ keySentinel
      ∧ ansSentinel ∉ validAlphabet ∧ keySentinel ∉ validAlphabet
      ∧ (r.answers s = none →
          hitsOf r s = countMatches (List.replicate (subjectLen s) ansSentinel)
            ((r.key s).getD (List.replicate (subjectLen s) keySentinel)))
      ∧ (r.answers s = none → hitsOf r s = 0)
      ∧ (r.answers s = some (List.replicate (subjectLen s) ansSentinel)
          → hitsOf r s = 0) := by
  have hnot : ansSentinel ∉ (r.key s).getD (List.replicate (subjectLen s) keySentinel) := by
    rcases hk with hnone | ⟨hsome, halpha⟩
    · rw [hnone]
      intro hmem
      have := (List.mem_replicate.mp hmem).2
      exact absurd this (by decide)
    · rw [hsome]
      intro hmem
      exact absurd (halpha _ hmem) (by decide)
  refine ⟨by decide, by decide, by decide, ?_, ?_, ?_⟩
  · intro hnone
    simp [hitsOf, hnone]
  · intro hnone
    simp only [hitsOf, hnone, Option.getD_none]
    exact countMatches_replicate_left ansSentinel _ _ hnot
  · intro hsent
    simp only [hitsOf, hsent, Option.getD_some]
    exact countMatches_replicate_left ansSentinel _ _ hnot

theorem sentinel_substitution_witness :
    ansSentinel ≠ keySentinel
      ∧ ansSentinel ∉ validAlphabet ∧ keySentinel ∉ validAlphabet
      ∧ (row0.answers .science = none →
          hitsOf row0 .science = countMatches (List.replicate (subjectLen .science) ansSentinel)
            ((row0.key .science).getD (List.replicate (subjectLen .science) keySentinel)))
      ∧ (row0.answers .science = none → hitsOf row0 .science = 0)
      ∧ (row0.answers .science = some (List.replicate (subjectLen .science) ansSentinel)
          → hitsOf row0 .science = 0) :=
  sentinel_substitution row0 .science [] (Or.inl rfl)

/-- C6 counterexample: a row whose science answers and key are both a
46-character string produces 46 hits, exceeding the fixed width 45, so the
bound does not hold for malformed (over-length) strings. -/
theorem hit_bound_cex : ¬ hitsOf rowLong .science ≤ subjectLen .science := by
  decide

/-- C6 as amended.  Hit-count bound: the hit count is a natural number,
and it is at most the fixed subject width L whenever the answers string is
absent (sentinel-substituted at width L) or present with length at most L;
a present answers string longer than L can produce more than L hits. -/
theorem hit_bound_amended (r : SourceRow) (s : Subject)
    (ha : ∀ a, r.answers s = some a → a.length ≤ subjectLen s) :
    0 ≤ hitsOf r s ∧ hitsOf r s ≤ subjectLen s := by
  refine ⟨Nat.zero_le _, ?_⟩
  rcases hans : r.answers s with _ | a
  · calc hitsOf r s
        ≤ ((r.answers s).getD (List.replicate (subjectLen s) ansSentinel)).length :=
          countMatches_le_left _ _
      _ = subjectLen s := by rw [hans]; simp
  · calc hitsOf r s
        ≤ ((r.answers s).getD (List.replicate (subjectLen s) ansSentinel)).length :=
          countMatches_le_left _ _
      _ = a.length := by simp [hans]
      _ ≤ subjectLen s := ha a hans

theorem hit_bound_amended_witness :
    0 ≤ hitsOf rowC1 .science ∧ hitsOf rowC1 .science ≤ subjectLen .science :=
  hit_bound_amended rowC1 .science (by
    intro a h
    have ha : some (List.replicate 45 'A') = some a := h
    obtain rfl := Option.some.inj ha
    simp [subjectLen])

/-- C7 counterexample: a row whose humanities answers and key are both a
47-character string produces 47 hits, so the comparison ran over more than
the fixed 45 positions: present strings are not truncated or padded to the
fixed width before comparison. -/
theorem truncation_policy_cex :
    hitsOf rowLong2 .humanities = 47
      ∧ ¬ hitsOf rowLong2 .humanities ≤ subjectLen .humanities := by
  decide

/-- C7 as amended.  Mismatched-length policy: only an absent string is
replaced by the fixed-width sentinel string; present answers and key
strings are compared as-is, position by position over the positions the two
strings share, with no truncation or padding to the fixed width (so the
count is over exactly L positions only when both strings have length L). -/
theorem truncation_policy_amended (r : SourceRow) (s : Subject) (a k : List Char)
    (ha : r.answers s = some a) (hk : r.key s = some k) :
    hitsOf r s = countMatches a k
      ∧ hitsOf r s ≤ min a.length k.length := by
  have hcm : hitsOf r s = countMatches a k := by
    simp [hitsOf, ha, hk]
  refine ⟨hcm, ?_⟩
  rw [hcm]
  exact le_min (countMatches_le_left a k) (countMatches_le_right a k)

theorem truncation_policy_amended_witness :
    hitsOf rowC1 .science = countMatches (List.replicate 45 'A') (List.replicate 45 'A')
      ∧ hitsOf rowC1 .science
          ≤ min (List.replicate 45 'A').length (List.replicate 45 'A').length :=
  truncation_policy_amended rowC1 .science (List.replicate 45 'A') (List.replicate 45 'A')
    rfl rfl

theorem sqlGe_none_left (b : Option ℚ) : sqlGe none b = none := rfl

theorem sqlGe_some_some (x y : ℚ) : sqlGe (some x) (some y) = some (decide (y ≤ x)) := rfl

theorem sqlCase_none (t e : Nat) : sqlCase none t e = e := rfl

theorem sqlCase_eq_one_iff (c : Option Bool) : sqlCase c 1 0 = 1 ↔ c = some true := by
  unfold sqlCase
  by_cases hc : c = some true <;> simp [hc]

theorem median_isSome_of_ne_nil (xs : List ℚ) (h : xs ≠ []) : (median xs).isSome := by
  simp only [median]
  set t := List.insertionSort (fun a b : ℚ => a ≤ b) xs with ht
  have hlen : t.length = xs.length := List.length_insertionSort _ _
  have hpos : 0 < t.length := by
    rw [hlen]
    exact List.length_pos.mpr h
  rw [if_neg (by omega)]
  by_cases hodd : t.length % 2 = 1
  · rw [if_pos hodd]
    have hlt : t.length / 2 < t.length := Nat.div_lt_self hpos (by omega)
    rw [List.getElem?_eq_getElem hlt]
    simp
  · rw [if_neg hodd]
    have hlt2 : t.length / 2 < t.length := Nat.div_lt_self hpos (by omega)
    have hlt1 : t.length / 2 - 1 < t.length := lt_of_le_of_lt (Nat.sub_le _ _) hlt2
    rw [List.getElem?_eq_getElem hlt1, List.getElem?_eq_getElem hlt2]
    simp

theorem score_mem_groupScores (hs : List HitRow) (h : HitRow) (s : Subject) (q : ℚ)
    (hmem : h ∈ hs) (hsc : h.score s = some q) :
    q ∈ groupScores hs h.exam_year (h.hits s) s := by
  unfold groupScores
  exact List.mem_filterMap.mpr ⟨h, List.mem_filter.mpr ⟨hmem, by simp⟩, hsc⟩

/-- Hit row of the concrete median scenario: year 2017, 10 hits in every
subject, the given score in every subject. -/
def mkHit (id : Int) (q : Option ℚ) : HitRow :=
  { registration_id := id, exam_year := 2017
    score := fun _ => q, code_exam := fun _ => none, hits := fun _ => 10 }

def h500 : HitRow := mkHit 1 (some 500)

def h600 : HitRow := mkHit 2 (some 600)

def hAbs : HitRow := mkHit 3 none

/-- The concrete (year=2017, hits=10) group with scores 500 and 600. -/
def hs2 : List HitRow := [h500, h600]

theorem insertionSort_500_600 :
    List.insertionSort (fun a b : ℚ => a ≤ b) [(500 : ℚ), 600] = [500, 600] := by
  norm_num [List.insertionSort, List.orderedInsert]

theorem median_500_600 : median [(500 : ℚ), 600] = some 550 := by
  simp only [median, insertionSort_500_600]
  norm_num

theorem groupScores_hs2 : groupScores hs2 2017 10 .math = [500, 600] := by decide

theorem labelOne_median_hs2 : (labelOne hs2 h500).median_score .math = some 550 := by
  show median (groupScores hs2 2017 10 .math) = some 550
  rw [groupScores_hs2, median_500_600]

/-- C2.  Median per group: every labeled record carries, per subject, the
median of the non-absent scores of its (exam_year, hits) group; the median
of an empty collection is absent (and only of an empty one); absent scores
are excluded from the group multiset; and a group with scores 500 and 600
gets median 550. -/
theorem median_per_group (hs : List HitRow) (r : LabeledRow) (s : Subject)
    (hr : r ∈ labelRows hs) :
    r.median_score s = median (groupScores hs r.exam_year (r.hits s) s)
      ∧ (∀ xs : List ℚ, median xs = none ↔ xs = [])
      ∧ median [(500 : ℚ), 600] = some 550
      ∧ groupScores [h500, h600, hAbs] 2017 10 .math = [500, 600]
      ∧ (labelOne hs2 h500).median_score .math = some 550 := by
  obtain ⟨h, hmem, rfl⟩ := List.mem_map.mp hr
  refine ⟨rfl, ?_, median_500_600, by decide, labelOne_median_hs2⟩
  intro xs
  constructor
  · intro hnone
    by_contra hne
    have hsome := median_isSome_of_ne_nil xs hne
    rw [hnone] at hsome
    exact absurd hsome (by decide)
  · intro hnil
    rw [hnil]
    rfl

theorem median_per_group_witness :
    (labelOne hs2 h500).median_score .math
        = median (groupScores hs2 (labelOne hs2 h500).exam_year
            ((labelOne hs2 h500).hits .math) .math)
      ∧ (∀ xs : List ℚ, median xs = none ↔ xs = [])
      ∧ median [(500 : ℚ), 600] = some 550
      ∧ groupScores [h500, h600, hAbs] 2017 10 .math = [500, 600]
      ∧ (labelOne hs2 h500).median_score .math = some 550 :=
  median_per_group hs2 (labelOne hs2 h500) .math
    (List.mem_map_of_mem _ (List.mem_cons_self _ _))

/-- C3.  Above-median labeling: a labeled record has above_median = 1 for
subject s exactly when its own score is present and at least the (present)
group median; the flag is 0 when the score is absent or the group median is
absent; a present score forces the group median to be present (the record
belongs to its own group); and a score exactly equal to the median is
labeled 1. -/
theorem above_median_labeling (hs : List HitRow) (r : LabeledRow) (s : Subject)
    (hr : r ∈ labelRows hs) :
    (r.above_median s = 1
        ↔ ∃ q m, r.score s = some q ∧ r.median_score s = some m ∧ m ≤ q)
      ∧ (r.score s = none → r.above_median s = 0)
      ∧ (r.median_score s = none → r.above_median s = 0)
      ∧ (∀ q, r.score s = some q → (r.median_score s).isSome)
      ∧ (∀ q, r.score s = some q → r.median_score s = some q
          → r.above_median s = 1) := by
  obtain ⟨h, hmem, rfl⟩ := List.mem_map.mp hr
  have hforce : ∀ q : ℚ, h.score s = some q →
      (median (groupScores hs h.exam_year (h.hits s) s)).isSome := fun q hq =>
    median_isSome_of_ne_nil _ (List.ne_nil_of_mem (score_mem_groupScores hs h s q hmem hq))
  simp only [labelOne]
  rcases hsc : h.score s with _ | q
  · simp [sqlGe_none_left, sqlCase_none]
  · rcases hmed : median (groupScores hs h.exam_year (h.hits s) s) with _ | m
    · have hsome := hforce q hsc
      rw [hmed] at hsome
      exact absurd hsome (by decide)
    · simp only [sqlGe_some_some, sqlCase_eq_one_iff, Option.some.injEq, Option.isSome_some]
      refine ⟨?_, by simp, by simp, by simp, ?_⟩
      · constructor
        · intro hdec
          exact ⟨q, m, rfl, rfl, by simpa using hdec⟩
        · rintro ⟨q', m', rfl, hm, hle⟩
          subst hm
          simpa using hle
      · rintro q' rfl hm
        simp [hm]

theorem above_median_labeling_witness :
    ((labelOne hs2 h500).above_median .math = 1
        ↔ ∃ q m, (labelOne hs2 h500).score .math = some q
            ∧ (labelOne hs2 h500).median_score .math = some m ∧ m ≤ q)
      ∧ ((labelOne hs2 h500).score .math = none
          → (labelOne hs2 h500).above_median .math = 0)
      ∧ ((labelOne hs2 h500).median_score .math = none
          → (labelOne hs2 h500).above_median .math = 0)
      ∧ (∀ q, (labelOne hs2 h500).score .math = some q
          → ((labelOne hs2 h500).median_score .math).isSome)
      ∧ (∀ q, (labelOne hs2 h500).score .math = some q
          → (labelOne hs2 h500).median_score .math = some q
          → (labelOne hs2 h500).above_median .math = 1) :=
  above_median_labeling hs2 (labelOne hs2 h500) .math
    (List.mem_map_of_mem _ (List.mem_cons_self _ _))

/-- C9.  Totality of above_median: the label of every record in the output
of the labeling pass is exactly 0 or 1, never NULL, and whenever the SQL
comparison score >= median is NULL (absent score or absent group median)
the CASE forces the label to 0 rather than propagating NULL. -/
theorem above_median_totality (hs : List HitRow) (r : LabeledRow) (s : Subject)
    (hr : r ∈ labelRows hs) :
    (r.above_median s = 0 ∨ r.above_median s = 1)
      ∧ (sqlGe (r.score s) (r.median_score s) = none → r.above_median s = 0) := by
  obtain ⟨h, hmem, rfl⟩ := List.mem_map.mp hr
  simp only [labelOne]
  constructor
  · by_cases hc : sqlGe (h.score s) (median (groupScores hs h.exam_year (h.hits s) s))
        = some true
    · right
      simp [sqlCase, hc]
    · left
      simp [sqlCase, hc]
  · intro hnone
    rw [hnone]
    exact sqlCase_none 1 0

theorem above_median_totality_witness :
    ((labelOne hs2 h500).above_median .math = 0 ∨ (labelOne hs2 h500).above_median .math = 1)
      ∧ (sqlGe ((labelOne hs2 h500).score .math) ((labelOne hs2 h500).median_score .math) = none
          → (labelOne hs2 h500).above_median .math = 0) :=
  above_median_totality hs2 (labelOne hs2 h500) .math
    (List.mem_map_of_mem _ (List.mem_cons_self _ _))

/-- Source row sharing (id, year) with `rowB` but carrying score 500. -/
def rowA : SourceRow := { row0 with score := fun _ => some 500 }

/-- Source row sharing (id, year) with `rowA` but carrying score 600. -/
def rowB : SourceRow := { row0 with score := fun _ => some 600 }

/-- C5 counterexample: two source rows with the same (registration_id,
exam_year) key but different scores yield two hit records, and the LEFT
JOIN matches each hit record against both attribute rows, emitting 4 output
records for 2 input records: with duplicate (id, year) pairs in the
attribute table the join emits every match, duplicating rows, rather than
taking a single first match and preserving the row count. -/
theorem join_first_match_cex :
    (compute_hits [rowA, rowB]).length = 4 ∧ [rowA, rowB].length = 2 := by
  constructor
  · decide
  · rfl

theorem joinOne_length (l : LabeledRow) (ts : List SourceRow)
    (h : (ts.filter (joinKey l)).length ≤ 1) : (joinOne l ts).length = 1 := by
  unfold joinOne
  rcases hf : ts.filter (joinKey l) with _ | ⟨t, ms⟩
  · rfl
  · rw [hf] at h
    cases ms with
    | nil => rfl
    | cons m ms' =>
      exfalso
      simp only [List.length_cons] at h
      omega

/-- C5 as amended.  Join semantics: the output is a LEFT JOIN from the
labeled records onto the attribute set on (registration_id, exam_year); a
record with no match in the attribute set is emitted with passthrough
attributes absent rather than dropped; when every key matches at most one
attribute row the output record count equals the labeled record count; with
duplicate (id, year) pairs in the attribute table the join emits one output
row per matching attribute row (every match, not first-match-wins). -/
theorem join_semantics_amended (ls : List LabeledRow) (ts : List SourceRow)
    (huniq : ∀ l ∈ ls, (ts.filter (joinKey l)).length ≤ 1) :
    (leftJoin ls ts).length = ls.length
      ∧ ∀ l ∈ ls, ts.filter (joinKey l) = []
          → ({ labeled := l, attrs := none } : OutRow) ∈ leftJoin ls ts := by
  constructor
  · revert huniq
    induction ls with
    | nil => intro _; rfl
    | cons l rest ih =>
      intro huniq
      have h1 := joinOne_length l ts (huniq l (List.mem_cons_self _ _))
      have h2 := ih fun x hx => huniq x (List.mem_cons_of_mem _ hx)
      simp only [leftJoin, List.flatMap_cons, List.length_append, List.length_cons]
      simp only [leftJoin] at h2
      rw [h1, h2]
      omega
  · intro l hl hf
    apply List.mem_flatMap.mpr
    refine ⟨l, hl, ?_⟩
    unfold joinOne
    rw [hf]
    exact List.mem_singleton.mpr rfl

theorem join_semantics_amended_witness :
    (leftJoin (labelRows (hitRows [row0])) []).length = (labelRows (hitRows [row0])).length
      ∧ ∀ l ∈ labelRows (hitRows [row0]), List.filter (joinKey l) [] = []
          → ({ labeled := l, attrs := none } : OutRow)
              ∈ leftJoin (labelRows (hitRows [row0])) [] :=
  join_semantics_amended (labelRows (hitRows [row0])) [] (fun l _ => by simp)

/-- Projection of a labeled row back onto its hit-CTE fields. -/
def toHitRow (l : LabeledRow) : HitRow :=
  { registration_id := l.registration_id, exam_year := l.exam_year
    score := l.score, code_exam := l.code_exam, hits := l.hits }

/-- C8.  Determinism/idempotence of the labeler: the labeling pass is a
pure function of the hit-record list; it carries the hit-record fields of
each input row through unchanged, so projecting the labeled output back to
hit records returns the input itself, and relabeling that projection yields
exactly the same median_score and above_median assignments. -/
theorem labeler_idempotent (hs : List HitRow) :
    (labelRows hs).map toHitRow = hs
      ∧ labelRows ((labelRows hs).map toHitRow) = labelRows hs := by
  have hproj : (labelRows hs).map toHitRow = hs := by
    unfold labelRows
    rw [List.map_map]
    have hid : toHitRow ∘ labelOne hs = id := by
      funext r
      rfl
    rw [hid, List.map_id]
  exact ⟨hproj, by rw [hproj]⟩

/-- C10.  Upstream presence filter: every row kept by the build-step filter
has presence flag 1 in all four subjects, so the record set the build step
writes for the hit/median engine contains only candidates present in every
subject. -/
theorem presence_filter_invariant (rs : List SourceRow) (r : SourceRow)
    (hr : r ∈ presenceFilter rs) :
    r.attrs.presence .science = some 1 ∧ r.attrs.presence .humanities = some 1
      ∧ r.attrs.presence .language = some 1 ∧ r.attrs.presence .math = some 1 := by
  obtain ⟨-, hp⟩ := List.mem_filter.mp hr
  simp only [Bool.and_eq_true, decide_eq_true_eq] at hp
  exact ⟨hp.1.1.1, hp.1.1.2, hp.1.2, hp.2⟩

theorem presence_filter_invariant_witness :
    row0.attrs.presence .science = some 1 ∧ row0.attrs.presence .humanities = some 1
      ∧ row0.attrs.presence .language = some 1 ∧ row0.attrs.presence .math = some 1 :=
  presence_filter_invariant [row0] row0
    (List.mem_filter.mpr ⟨List.mem_cons_self _ _, by decide⟩)
